import Mathlib

/-!
Shallow embedding of the detection-and-association pipeline of the
`screenshot_poke` repository, together with proofs about the claims of its
specification.

Timestamps (Python floats / epoch seconds) are modelled as integers: no
behavior settled here depends on fractional seconds, and the win-rate of
`compute_totals` is the one rational value.
The mutable per-thread state is modelled as explicit record-passing; file
system contents (directory listings, modification times) are inputs.
-/

/-- A detected-result item pushed on the shared channel, as consumed by
`ResultAssociationThread` (`result_association.py`): a dict
`{"timestamp": float, "result": str, "synthetic": bool?}`.  A missing
`synthetic` key is `false`. -/
structure ResultItem where
  timestamp : ℤ
  result : String
  synthetic : Bool
deriving DecidableEq

/-- A pending screenshot as enqueued by the scanner: the `(path, timestamp)`
pair appended to `self._pending_images` (`result_association.py:110`). -/
structure PendingImage where
  path : String
  timestamp : ℤ
deriving DecidableEq

/-- One ledger row `timestamp, imageName, result[, season]` (spec section 6,
"Persisted layout"). -/
structure AssocRecord where
  timestamp : ℤ
  image : String
  result : String
  season : String
deriving DecidableEq

/-- `os.path.basename` for POSIX-style paths: the part after the last
slash. -/
def basename (p : String) : String :=
  (p.data.foldl (fun acc c => if c = '/' then [] else acc ++ [c]) []).asString

/-- Lookup in the tag index (`_tags.json` deserialized as a map
`imageName -> list<string>`), with the empty list for a missing key. -/
def lookupTags : List (String × List String) → String → List String
  | [], _ => []
  | (k, v) :: rest, key => if k = key then v else lookupTags rest key

/-- Write one key of the tag index, inserting it at the end when absent
(Python dict update semantics; keys are unique). -/
def setTags : List (String × List String) → String → List String → List (String × List String)
  | [], key, v => [(key, v)]
  | (k, w) :: rest, key, v =>
      if k = key then (key, v) :: rest else (k, w) :: setTags rest key v

/-- Append one tag to an entry unless already present
(`if tag not in data[image]: data[image].append(tag)`). -/
def addTag1 (ts : List String) (t : String) : List String :=
  if t ∈ ts then ts else ts ++ [t]

/-- Modelled from the spec: `add_tags`, called at `result_association.py:208`,
is absent from this snapshot of `app/utils/stats.py` (the snapshot carries an
older, single-tag `add_result_tag` without season support, and UI callers also
reference absent `load_results_with_season`/`list_seasons`).  Spec section 3:
the TagIndex maps `imageName -> set<string>` and "the pairing result label
and, if present, a normalized season tag ... are added on every successful
pairing".  Structure follows the snapshot's `add_result_tag`: create the entry
when missing, then append each tag not already present. -/
def add_tags (idx : List (String × List String)) (image : String)
    (tags : List String) : List (String × List String) :=
  setTags idx image (tags.foldl addTag1 (lookupTags idx image))

/-- Modelled from the spec: the season-aware `append_result` called at
`result_association.py:201` is absent from this snapshot of
`app/utils/stats.py` (the snapshot's `append_result` lacks the `season`
parameter the caller passes).  Spec section 6: "Ledger: append-only delimited
rows `timestamp, imageName, result[, season]`"; spec section 3: one record
per successful pairing, append-only. -/
def append_result (ledger : List AssocRecord) (image result : String)
    (ts : ℤ) (season : String) : List AssocRecord :=
  ledger ++ [⟨ts, image, result, season⟩]

/-- The in-memory state of `ResultAssociationThread` together with the files
it appends to (ledger CSV rows and the tag index). -/
structure EngineState where
  pendingImages : List PendingImage
  pendingResults : List ResultItem
  pendingStops : List ℤ
  ledger : List AssocRecord
  tags : List (String × List String)
  season : String
  tol : ℤ
  defaultWinTimeout : ℤ
  firstUnpairedTs : Option ℤ
deriving DecidableEq

/-- The index scan shared by `_pop_best_result_for` and `_pop_stop_for`
(`result_association.py:156-195`): starting from `idx_best = -1` (here
`none`) and `best_delta = 1e9`, keep the first strict improvement. -/
def scanBestAux : List ℤ → Nat → Option Nat → ℤ → Option Nat × ℤ
  | [], _, ib, bd => (ib, bd)
  | d :: ds, i, ib, bd =>
      if d < bd then scanBestAux ds (i + 1) (some i) d
      else scanBestAux ds (i + 1) ib bd

/-- Run the scan over a list of deltas with the source's initial values. -/
def scanBest (ds : List ℤ) : Option Nat × ℤ :=
  scanBestAux ds 0 none 1000000000

/-- `_pop_best_result_for` (`result_association.py:157-177`): pick the pending
result with the smallest `|timestamp - ts_img|`; pop and return it when that
minimum is within the tolerance, else return nothing and leave the queue
unchanged.  (The source's early return on an empty queue coincides with the
scan of an empty list.) -/
def popBestResultFor (results : List ResultItem) (tsImg tol : ℤ) :
    Option (ResultItem × List ResultItem) :=
  match scanBest (results.map (fun r => |r.timestamp - tsImg|)) with
  | (some i, bd) =>
      if bd ≤ tol then
        match results[i]? with
        | some r => some (r, results.eraseIdx i)
        | none => none
      else none
  | (none, _) => none

/-- `_pop_stop_for` (`result_association.py:179-195`): same scan over the
pending stop-marker timestamps; pops the closest marker when within
tolerance. -/
def popStopFor (stops : List ℤ) (tsImg tol : ℤ) :
    Option (ℤ × List ℤ) :=
  match scanBest (stops.map (fun t => |t - tsImg|)) with
  | (some i, bd) =>
      if bd ≤ tol then
        match stops[i]? with
        | some t => some (t, stops.eraseIdx i)
        | none => none
      else none
  | (none, _) => none

/-- `_apply_pair` (`result_association.py:197-221`): append one ledger row and
tag the image with the result (and the season tag when a season is
configured).  The OBS text-source republish on synthetic pairs is an external
side effect and is not part of the persisted state. -/
def applyPair (st : EngineState) (imgPath result : String) (tsRes : ℤ)
    (_synthetic : Bool) : EngineState :=
  let name := basename imgPath
  let tgs := if st.season ≠ "" then [result, "season:" ++ st.season] else [result]
  { st with
      ledger := append_result st.ledger name result tsRes st.season
      tags := add_tags st.tags name tgs }

/-- The body of the `while self._pending_images:` loop of `_pair_items`
(`result_association.py:224-249`), with the pending-image queue threaded as
the recursion argument (the state's `pendingImages` field is written back on
every exit).  The head image is paired with the best pending result when one
is within tolerance (also dropping the stop marker closest to the image, if
within tolerance); otherwise with the closest stop marker as a synthetic win;
otherwise the loop breaks.  `firstUnpairedTs` is cleared when the queue
empties. -/
def pairLoop (imgs : List PendingImage) (st : EngineState) : EngineState :=
  match imgs with
  | [] => { st with pendingImages := [], firstUnpairedTs := none }
  | img :: rest =>
    match popBestResultFor st.pendingResults img.timestamp st.tol with
    | some (r, restRes) =>
        let rname := if r.result = "" then "win" else r.result
        let tsRes := if r.timestamp = 0 then img.timestamp else r.timestamp
        let st1 := applyPair { st with pendingResults := restRes } img.path rname tsRes r.synthetic
        let st2 := { st1 with
          pendingStops := ((popStopFor st1.pendingStops img.timestamp st.tol).map Prod.snd).getD st1.pendingStops }
        pairLoop rest st2
    | none =>
      match popStopFor st.pendingStops img.timestamp st.tol with
      | some (tStop, restStops) =>
          pairLoop rest (applyPair { st with pendingStops := restStops } img.path "win" tStop true)
      | none => { st with pendingImages := imgs }

/-- `_pair_items` (`result_association.py:156-249`). -/
def pairItems (st : EngineState) : EngineState :=
  pairLoop st.pendingImages st

/-- Step 4 of `run` (`result_association.py:137-148`): when a positive
default-win timeout is configured, the first-unpaired clock is running,
images are pending and no results are pending, and the clock has exceeded
the timeout, synthesize `{"timestamp": now, "result": "win",
"synthetic": True}` and re-run the pairing pass. -/
def defaultWinStep (st : EngineState) (now : ℤ) : EngineState :=
  match st.firstUnpairedTs with
  | some t0 =>
      if st.defaultWinTimeout > 0 ∧ st.pendingImages ≠ [] ∧
          st.pendingResults = [] ∧ now - t0 ≥ st.defaultWinTimeout then
        pairItems { st with pendingResults := [⟨now, "win", true⟩] }
      else st
  | none => st

/-- Image admission timestamp (`run`, `result_association.py:104-108`):
`ts = os.path.getmtime(p)`, falling back to `time.time()` when the stat
fails.  The file name is not consulted. -/
def admittedTimestamp (_name : String) (mtime : Option ℤ) (now : ℤ) : ℤ :=
  match mtime with
  | some m => m
  | none => now

/-- Calendar fields extracted from a file name, standing for the
`datetime.datetime` produced by `strptime` in `_parse_name_ts`
(`app/utils/pairs.py`). -/
structure NameDateTime where
  year : Nat
  month : Nat
  day : Nat
  hour : Nat
  minute : Nat
  second : Nat
deriving DecidableEq

/-- Gregorian leap-year rule, as used by `datetime` for day validation. -/
def isLeapYear (y : Nat) : Bool :=
  decide ((y % 4 = 0 ∧ y % 100 ≠ 0) ∨ y % 400 = 0)

/-- Days of a month, as used by `datetime` for day validation. -/
def daysInMonth (y m : Nat) : Nat :=
  if m = 2 then (if isLeapYear y then 29 else 28)
  else if m = 4 ∨ m = 6 ∨ m = 9 ∨ m = 11 then 30
  else 31

/-- The `datetime.datetime` constructor constraints that make
`datetime.strptime` succeed on already-lexically-matching fields (out of
range fields raise `ValueError`, caught by `_parse_name_ts`). -/
def validDateTime (d : NameDateTime) : Bool :=
  decide (1 ≤ d.year ∧ d.year ≤ 9999 ∧ 1 ≤ d.month ∧ d.month ≤ 12 ∧
    1 ≤ d.day ∧ d.day ≤ daysInMonth d.year d.month ∧
    d.hour ≤ 23 ∧ d.minute ≤ 59 ∧ d.second ≤ 59)

/-- Numeric value of two ASCII digit characters. -/
def digit2 (a b : Char) : Nat :=
  (a.toNat - 48) * 10 + (b.toNat - 48)

/-- Numeric value of four ASCII digit characters. -/
def digit4 (a b c d : Char) : Nat :=
  digit2 a b * 100 + digit2 c d

/-- Lexical match of the OBS-style prefix pattern
`^\d{4}-\d{2}-\d{2}[ _]\d{2}-\d{2}-\d{2}` (`_NAME_TS_RE_OBS`,
`pairs.py:15`); anchored at the start, anything may follow. -/
def matchObs : List Char → Option NameDateTime
  | y1 :: y2 :: y3 :: y4 :: s1 :: m1 :: m2 :: s2 :: d1 :: d2 :: sep ::
      h1 :: h2 :: s3 :: i1 :: i2 :: s4 :: e1 :: e2 :: _ =>
      if y1.isDigit && y2.isDigit && y3.isDigit && y4.isDigit &&
          s1 == '-' && m1.isDigit && m2.isDigit && s2 == '-' &&
          d1.isDigit && d2.isDigit && (sep == ' ' || sep == '_') &&
          h1.isDigit && h2.isDigit && s3 == '-' && i1.isDigit && i2.isDigit &&
          s4 == '-' && e1.isDigit && e2.isDigit then
        some ⟨digit4 y1 y2 y3 y4, digit2 m1 m2, digit2 d1 d2,
              digit2 h1 h2, digit2 i1 i2, digit2 e1 e2⟩
      else none
  | _ => none

/-- Lexical match of the legacy prefix pattern `^\d{8}_\d{6}`
(`_NAME_TS_RE_LEGACY`, `pairs.py:16`). -/
def matchLegacy : List Char → Option NameDateTime
  | y1 :: y2 :: y3 :: y4 :: m1 :: m2 :: d1 :: d2 :: sep ::
      h1 :: h2 :: i1 :: i2 :: e1 :: e2 :: _ =>
      if y1.isDigit && y2.isDigit && y3.isDigit && y4.isDigit &&
          m1.isDigit && m2.isDigit && d1.isDigit && d2.isDigit &&
          sep == '_' && h1.isDigit && h2.isDigit && i1.isDigit && i2.isDigit &&
          e1.isDigit && e2.isDigit then
        some ⟨digit4 y1 y2 y3 y4, digit2 m1 m2, digit2 d1 d2,
              digit2 h1 h2, digit2 i1 i2, digit2 e1 e2⟩
      else none
  | _ => none

/-- The legacy half of `_parse_name_ts`: lexical match plus `strptime`
validation. -/
def legacyParse (name : String) : Option NameDateTime :=
  match matchLegacy name.data with
  | some d => if validDateTime d then some d else none
  | none => none

/-- `_parse_name_ts` (`pairs.py:46-67`): try the OBS-style pattern first; on
a lexical match whose fields do not form a valid datetime (`strptime`
raises), fall through to the legacy pattern. -/
def parse_name_ts (name : String) : Option NameDateTime :=
  match matchObs name.data with
  | some d => if validDateTime d then some d else legacyParse name
  | none => legacyParse name

/-- The recording-lifecycle state owned by `PyRkaisiTeisiThread`
(`rkaisi_teisi.py`): the `Recording`/`Idle` flag and the open session's
start timestamp. -/
structure RkaisiState where
  recording : Bool
  recStartTs : Option ℤ
deriving DecidableEq

/-- The stop branch of `PyRkaisiTeisiThread._loop` (`rkaisi_teisi.py:196-235`),
entered when `recording` holds and the mark template matches.  A stop marker
`{"timestamp": now, "type": "stop"}` is first emitted to the shared channel;
the stop command is then issued and polled, `stopped` being whether
`is_recording()` confirmed `False`.  The `finally` block hands the window
`[recStartTs, now]` to `associate_recording_window` whenever a session start
is recorded, clears `rec_start_ts`, and clears `recording` only when the stop
was confirmed (`self._recording = False if stopped else self._recording`).
Returned: the new state and the handed-off window, if any. -/
def stopBranch (st : RkaisiState) (now : ℤ) (stopped : Bool) :
    RkaisiState × Option (ℤ × ℤ) :=
  let window := st.recStartTs.map (fun s => (s, now))
  ({ recording := if stopped then false else st.recording,
     recStartTs := none }, window)

/-- An outcome label, as detected by `SyouhaiThread` (`syouhai.py`). -/
inductive OutcomeLabel
  | win
  | lose
  | disconnect
deriving DecidableEq

/-- The state of `SyouhaiThread`: the three running counters and the
edge-trigger memory `_prev_label`. -/
structure SyouhaiState where
  winCount : Nat
  loseCount : Nat
  dcCount : Nat
  prevLabel : Option OutcomeLabel
deriving DecidableEq

/-- An outcome event `{"timestamp": now, "result": result}` pushed to the
shared result queue (`syouhai.py:166`). -/
structure ResultEvent where
  timestamp : ℤ
  label : OutcomeLabel
deriving DecidableEq

/-- The label priority chain of `SyouhaiThread._loop` (`syouhai.py:139-145`):
`lose`, then `disconnect`, then `win`; `none` when no region matches. -/
def classify (isLose isDc isWin : Bool) : Option OutcomeLabel :=
  if isLose then some .lose
  else if isDc then some .disconnect
  else if isWin then some .win
  else none

/-- Read one counter of the classifier state. -/
def countOf (st : SyouhaiState) : OutcomeLabel → Nat
  | .win => st.winCount
  | .lose => st.loseCount
  | .disconnect => st.dcCount

/-- Increment one counter of the classifier state
(`self._counts[result] += 1`). -/
def bumpCount (st : SyouhaiState) : OutcomeLabel → SyouhaiState
  | .win => { st with winCount := st.winCount + 1 }
  | .lose => { st with loseCount := st.loseCount + 1 }
  | .disconnect => { st with dcCount := st.dcCount + 1 }

/-- One poll of `SyouhaiThread._loop` (`syouhai.py:132-170`) after template
evaluation: classify with priority; on an edge (label differs from
`_prev_label`) with a detected label, bump that counter, emit one event and
remember the label; on an edge to no detection, just clear the memory; on no
edge, do nothing.  (The OBS counter-text republish is an external side
effect.)  Returns the new state and the emitted events. -/
def syouhaiStep (st : SyouhaiState) (isLose isDc isWin : Bool) (now : ℤ) :
    SyouhaiState × List ResultEvent :=
  let r := classify isLose isDc isWin
  if r ≠ st.prevLabel then
    match r with
    | some l => ({ bumpCount st l with prevLabel := some l }, [⟨now, l⟩])
    | none => ({ st with prevLabel := none }, [])
  else (st, [])

/-- `n` consecutive polls with the same template evaluations, events
accumulated in order. -/
def syouhaiRun (isLose isDc isWin : Bool) (now : ℤ) :
    Nat → SyouhaiState → SyouhaiState × List ResultEvent
  | 0, st => (st, [])
  | n + 1, st =>
      let p := syouhaiStep st isLose isDc isWin now
      let q := syouhaiRun isLose isDc isWin now n p.1
      (q.1, p.2 ++ q.2)

/-- One directory entry from `os.scandir(recordings_dir)`: name, modification
time and the `is_file()` flag. -/
structure FileEntry where
  path : String
  mtime : ℤ
  isFile : Bool
deriving DecidableEq

/-- The extension according to `os.path.splitext(name)[1].lower()` for a
plain file name (no directory separators): the suffix from the last dot,
provided some earlier character of the name is not a dot (leading dots do
not start an extension), lower-cased. -/
def extOf (name : String) : String :=
  let cs := name.data
  match (cs.enum.filter (fun p => p.2 = '.')).getLast? with
  | some (i, _) =>
      if (cs.take i).all (fun c => c = '.') then ""
      else ((cs.drop i).map Char.toLower).asString
  | none => ""

/-- Strict lexicographic comparison on the sort key
`(abs(mtime - end), -mtime)` used by `find_recording_file`
(`pairs.py:149`). -/
def keyLt (endTime : ℤ) (a b : FileEntry) : Bool :=
  decide (|a.mtime - endTime| < |b.mtime - endTime|) ||
    (decide (|a.mtime - endTime| = |b.mtime - endTime|) &&
      decide (b.mtime < a.mtime))

/-- The head of the stable sort by `keyLt`: a left fold keeping the current
best candidate, replaced only on strict improvement (so the earliest of
equal keys is kept, as Python's stable `sort` + `[0]` does). -/
def pickBest (endTime : ℤ) : Option FileEntry → List FileEntry → Option FileEntry
  | acc, [] => acc
  | none, e :: es => pickBest endTime (some e) es
  | some b, e :: es =>
      pickBest endTime (some (if keyLt endTime e b then e else b)) es

/-- The candidate filter of `find_recording_file` (`pairs.py:131-143`):
regular files with an allowed extension and modification time within
`[lo, hi]`. -/
def isCandidate (exts : List String) (lo hi : ℤ) (e : FileEntry) : Bool :=
  e.isFile && exts.contains (extOf e.path) &&
    decide (lo ≤ e.mtime) && decide (e.mtime ≤ hi)

/-- `find_recording_file` (`pairs.py:107-150`) over an abstract directory
listing: `lo = start - max(0, margin)`, `hi = end + max(0, margin)`;
candidates are filtered by extension and window; the one with the smallest
`(abs(mtime - end), -mtime)` key is returned, or nothing when there is no
candidate.  (The missing-directory guard and the environment override of the
margin are environment handling outside this state.) -/
def find_recording_file (entries : List FileEntry)
    (startTime endTime margin : ℤ) (exts : List String) : Option FileEntry :=
  let lo := startTime - max 0 margin
  let hi := endTime + max 0 margin
  pickBest endTime none (entries.filter (isCandidate exts lo hi))

/-- The timestamp of one parsed ledger row, standing for the
`datetime.datetime` from `load_results`: the calendar date (as an abstract
day index ordered like dates) and the time of day. -/
structure RowTime where
  date : Int
  timeOfDay : ℚ
deriving DecidableEq

/-- One parsed ledger row `(timestamp, image, result)` as returned by
`load_results` (`stats.py:39-57`). -/
structure LedgerRow where
  t : RowTime
  image : String
  result : String
deriving DecidableEq

/-- One iteration of the counting loop of `compute_totals`
(`stats.py:89-95`): `lose`, else `disconnect`, else counted as a win. -/
def totalsStep (acc : Nat × Nat × Nat) (r : LedgerRow) : Nat × Nat × Nat :=
  if r.result = "lose" then (acc.1, acc.2.1 + 1, acc.2.2)
  else if r.result = "disconnect" then (acc.1, acc.2.1, acc.2.2 + 1)
  else (acc.1 + 1, acc.2.1, acc.2.2)

/-- The counting loop of `compute_totals` (`stats.py:88-95`). -/
def totalsLoop (rows : List LedgerRow) (acc : Nat × Nat × Nat) :
    Nat × Nat × Nat :=
  rows.foldl totalsStep acc

/-- `compute_totals` (`stats.py:87-98`): `(win, lose, dc, winrate)` with
`winrate = win / (win + lose) * 100` when `win + lose > 0`, else `0.0`. -/
def compute_totals (rows : List LedgerRow) : Nat × Nat × Nat × ℚ :=
  let c := totalsLoop rows (0, 0, 0)
  let wr : ℚ :=
    if c.1 + c.2.1 > 0 then ((c.1 : ℚ) / ((c.1 : ℚ) + (c.2.1 : ℚ))) * 100
    else 0
  (c.1, c.2.1, c.2.2, wr)

/-- The date filter of `aggregate_by_day` (`stats.py:72-75`): skip rows
before `start` or after `end` when those bounds are given. -/
def inDayRange (s e : Option Int) (d : Int) : Bool :=
  (match s with | some s0 => decide (s0 ≤ d) | none => true) &&
    (match e with | some e0 => decide (d ≤ e0) | none => true)

/-- The per-day classification of `aggregate_by_day` (`stats.py:78`):
`key = "win" if res not in ("lose", "disconnect") else res`. -/
def dayKey (res : String) : String :=
  if res = "lose" ∨ res = "disconnect" then res else "win"

/-- Ascending insertion into a sorted list of dates. -/
def insertAsc (d : Int) : List Int → List Int
  | [] => [d]
  | e :: es => if d ≤ e then d :: e :: es else e :: insertAsc d es

/-- Ascending sort of the distinct dates (`sorted(agg.keys())`,
`stats.py:81`). -/
def sortAsc (l : List Int) : List Int :=
  l.foldr insertAsc []

/-- `aggregate_by_day` (`stats.py:60-84`): filter rows to the optional
`[start, end]` date range, then report `(date, win, lose, disconnect)` for
each distinct date in ascending date order; the dict-accumulation of the
source is expressed as one count per (date, key). -/
def aggregate_by_day (rows : List LedgerRow) (s e : Option Int) :
    List (Int × Nat × Nat × Nat) :=
  let f := rows.filter (fun r => inDayRange s e r.t.date)
  let ds := sortAsc ((f.map (fun r => r.t.date)).dedup)
  ds.map (fun d =>
    (d,
     (f.filter (fun r => decide (r.t.date = d) && decide (dayKey r.result = "win"))).length,
     (f.filter (fun r => decide (r.t.date = d) && decide (dayKey r.result = "lose"))).length,
     (f.filter (fun r => decide (r.t.date = d) && decide (dayKey r.result = "disconnect"))).length))

/-- The non-strict key order on candidate files: closer to the window end, or
equally close and at least as recent.  This is the reflexive face of
`keyLt`. -/
def keyLe (endTime : ℤ) (a b : FileEntry) : Prop :=
  |a.mtime - endTime| < |b.mtime - endTime| ∨
    (|a.mtime - endTime| = |b.mtime - endTime| ∧ b.mtime ≤ a.mtime)

/-- The tolerance-matching example of spec section 8: image at `t = 100`,
pending results `{t = 80, win}` and `{t = 105, lose}`, tolerance 20. -/
def toleranceExample : EngineState :=
  { pendingImages := [⟨"img.png", 100⟩],
    pendingResults := [⟨80, "win", false⟩, ⟨105, "lose", false⟩],
    pendingStops := [], ledger := [], tags := [], season := "",
    tol := 20, defaultWinTimeout := 0, firstUnpairedTs := none }

/-- The starvation-timeout example of spec section 8: `defaultWinTimeout = 30`
(with the default tolerance 20), one image of timestamp 0 discovered at time
0, no results. -/
def starvationStart : EngineState :=
  { pendingImages := [⟨"img.png", 0⟩], pendingResults := [], pendingStops := [],
    ledger := [], tags := [], season := "", tol := 20, defaultWinTimeout := 30,
    firstUnpairedTs := some 0 }

/-- The state the starvation example reaches on the tick at time 31: the
synthesized win is pending but unpairable. -/
def starvationStuck : EngineState :=
  { starvationStart with pendingResults := [⟨31, "win", true⟩] }

/-- A state with an image at `t = 100` pairable with a pending lose result
and two stop markers, both within the tolerance 20 of the image. -/
def twoStopsState : EngineState :=
  { pendingImages := [⟨"a.png", 100⟩], pendingResults := [⟨100, "lose", false⟩],
    pendingStops := [90, 105], ledger := [], tags := [], season := "",
    tol := 20, defaultWinTimeout := 0, firstUnpairedTs := none }

/-- The window-pairing example of spec section 8: candidate recordings with
modification times 985, 1005 and 1035. -/
def windowExampleEntries : List FileEntry :=
  [⟨"a.mkv", 985, true⟩, ⟨"b.mkv", 1005, true⟩, ⟨"c.mkv", 1035, true⟩]

/-- A state whose only pending image can be paired with nothing: the head of
the queue blocks the pairing pass. -/
def singleImageState : EngineState :=
  { pendingImages := [⟨"solo.png", 50⟩], pendingResults := [], pendingStops := [],
    ledger := [], tags := [], season := "", tol := 20, defaultWinTimeout := 0,
    firstUnpairedTs := none }

/-- An engine state configured with season `"S13"` and nothing pending. -/
def seasonState : EngineState :=
  { pendingImages := [], pendingResults := [], pendingStops := [], ledger := [],
    tags := [], season := "S13", tol := 20, defaultWinTimeout := 0,
    firstUnpairedTs := none }

/-- Three parsed ledger rows over two days, one with a free-text label. -/
def exampleRows : List LedgerRow :=
  [⟨⟨2, 0⟩, "a", "win"⟩, ⟨⟨1, 0⟩, "b", "lose"⟩, ⟨⟨2, 0⟩, "c", "mystery"⟩]

/-! ## Helper lemmas -/

theorem scanBestAux_le (l : List ℤ) (i : Nat) (ib : Option Nat) (bd : ℤ) :
    (scanBestAux l i ib bd).2 ≤ bd ∧ ∀ d ∈ l, (scanBestAux l i ib bd).2 ≤ d := by
  induction l generalizing i ib bd with
  | nil => simp [scanBestAux]
  | cons d ds ih =>
    simp only [scanBestAux]
    by_cases h : d < bd
    · simp only [if_pos h]
      obtain ⟨h1, h2⟩ := ih (i + 1) (some i) d
      refine ⟨le_trans h1 (le_of_lt h), ?_⟩
      intro x hx
      rcases List.mem_cons.mp hx with rfl | hx
      · exact h1
      · exact h2 x hx
    · simp only [if_neg h]
      obtain ⟨h1, h2⟩ := ih (i + 1) ib bd
      refine ⟨h1, ?_⟩
      intro x hx
      rcases List.mem_cons.mp hx with rfl | hx
      · exact le_trans h1 (not_lt.mp h)
      · exact h2 x hx

theorem scanBestAux_idx (l : List ℤ) (i : Nat) (ib : Option Nat) (bd : ℤ) :
    scanBestAux l i ib bd = (ib, bd) ∨
      ∃ k, (scanBestAux l i ib bd).1 = some (i + k) ∧
        l[k]? = some (scanBestAux l i ib bd).2 := by
  induction l generalizing i ib bd with
  | nil => left; simp [scanBestAux]
  | cons d ds ih =>
    simp only [scanBestAux]
    by_cases h : d < bd
    · simp only [if_pos h]
      right
      rcases ih (i + 1) (some i) d with heq | ⟨k, hk1, hk2⟩
      · refine ⟨0, ?_, ?_⟩
        · rw [heq]; simp
        · rw [heq]; simp
      · refine ⟨k + 1, ?_, ?_⟩
        · rw [hk1]; congr 1; omega
        · simpa using hk2
    · simp only [if_neg h]
      rcases ih (i + 1) ib bd with heq | ⟨k, hk1, hk2⟩
      · left; exact heq
      · right
        refine ⟨k + 1, ?_, ?_⟩
        · rw [hk1]; congr 1; omega
        · simpa using hk2

theorem scanBest_some (ds : List ℤ) (i : Nat) (bd : ℤ)
    (h : scanBest ds = (some i, bd)) :
    ds[i]? = some bd ∧ ∀ d ∈ ds, bd ≤ d := by
  have hle := scanBestAux_le ds 0 none 1000000000
  rcases scanBestAux_idx ds 0 none 1000000000 with heq | ⟨k, hk1, hk2⟩
  · rw [scanBest, heq] at h
    simp at h
  · rw [scanBest] at h
    rw [h] at hk1 hk2 hle
    have hik : i = k := by simpa using hk1
    subst hik
    exact ⟨hk2, hle.2⟩

theorem scanBest_none (ds : List ℤ) (bd : ℤ) (h : scanBest ds = (none, bd)) :
    ∀ d ∈ ds, 1000000000 ≤ d := by
  have hle := scanBestAux_le ds 0 none 1000000000
  rcases scanBestAux_idx ds 0 none 1000000000 with heq | ⟨k, hk1, hk2⟩
  · rw [heq] at hle
    simpa using hle.2
  · rw [scanBest] at h
    rw [h] at hk1
    simp at hk1

theorem mem_of_getElem_opt {α : Type} {l : List α} {i : Nat} {a : α}
    (h : l[i]? = some a) : a ∈ l := by
  rcases List.getElem?_eq_some.mp h with ⟨hw, rfl⟩
  exact List.getElem_mem hw

theorem popBestResultFor_some (results : List ResultItem) (tsImg tol : ℤ)
    (r : ResultItem) (rest : List ResultItem)
    (h : popBestResultFor results tsImg tol = some (r, rest)) :
    r ∈ results ∧ |r.timestamp - tsImg| ≤ tol ∧
      ∀ q ∈ results, |r.timestamp - tsImg| ≤ |q.timestamp - tsImg| := by
  unfold popBestResultFor at h
  cases hscan : scanBest (results.map (fun x => |x.timestamp - tsImg|)) with
  | mk ib bd =>
    rw [hscan] at h
    cases ib with
    | none => simp at h
    | some i =>
      dsimp only at h
      by_cases hbd : bd ≤ tol
      · rw [if_pos hbd] at h
        cases hget : results[i]? with
        | none => rw [hget] at h; simp at h
        | some r0 =>
          rw [hget] at h
          simp only [Option.some.injEq, Prod.mk.injEq] at h
          obtain ⟨hr, _⟩ := h
          subst hr
          obtain ⟨hidx, hmin⟩ := scanBest_some _ i bd hscan
          rw [List.getElem?_map, hget] at hidx
          simp only [Option.map_some', Option.some.injEq] at hidx
          refine ⟨mem_of_getElem_opt hget, ?_, ?_⟩
          · rw [hidx]; exact hbd
          · intro q hq
            rw [hidx]
            exact hmin _ (List.mem_map_of_mem _ hq)
      · rw [if_neg hbd] at h
        simp at h

theorem popBestResultFor_none (results : List ResultItem) (tsImg tol : ℤ)
    (htol : tol < 1000000000)
    (h : popBestResultFor results tsImg tol = none) :
    ∀ q ∈ results, tol < |q.timestamp - tsImg| := by
  intro q hq
  unfold popBestResultFor at h
  cases hscan : scanBest (results.map (fun x => |x.timestamp - tsImg|)) with
  | mk ib bd =>
    rw [hscan] at h
    cases ib with
    | none =>
      have := scanBest_none _ bd hscan _ (List.mem_map_of_mem _ hq)
      omega
    | some i =>
      dsimp only at h
      obtain ⟨hidx, hmin⟩ := scanBest_some _ i bd hscan
      by_cases hbd : bd ≤ tol
      · rw [if_pos hbd] at h
        cases hget : results[i]? with
        | none =>
          rw [List.getElem?_map, hget] at hidx
          simp at hidx
        | some r0 => rw [hget] at h; simp at h
      · have := hmin _ (List.mem_map_of_mem _ hq)
        omega

theorem popStopFor_some (stops : List ℤ) (tsImg tol : ℤ)
    (t : ℤ) (rest : List ℤ)
    (h : popStopFor stops tsImg tol = some (t, rest)) :
    t ∈ stops ∧ |t - tsImg| ≤ tol ∧
      (∀ u ∈ stops, |t - tsImg| ≤ |u - tsImg|) ∧
      rest.length + 1 = stops.length := by
  unfold popStopFor at h
  cases hscan : scanBest (stops.map (fun x => |x - tsImg|)) with
  | mk ib bd =>
    rw [hscan] at h
    cases ib with
    | none => simp at h
    | some i =>
      dsimp only at h
      by_cases hbd : bd ≤ tol
      · rw [if_pos hbd] at h
        cases hget : stops[i]? with
        | none => rw [hget] at h; simp at h
        | some t0 =>
          rw [hget] at h
          simp only [Option.some.injEq, Prod.mk.injEq] at h
          obtain ⟨ht, hrest⟩ := h
          subst ht
          obtain ⟨hidx, hmin⟩ := scanBest_some _ i bd hscan
          rw [List.getElem?_map, hget] at hidx
          simp only [Option.map_some', Option.some.injEq] at hidx
          have hilt : i < stops.length := by
            rcases List.getElem?_eq_some.mp hget with ⟨hw, _⟩
            exact hw
          refine ⟨mem_of_getElem_opt hget, ?_, ?_, ?_⟩
          · rw [hidx]; exact hbd
          · intro u hu
            rw [hidx]
            exact hmin _ (List.mem_map_of_mem _ hu)
          · rw [← hrest, List.length_eraseIdx_of_lt hilt]
            omega
      · rw [if_neg hbd] at h
        simp at h

theorem popStopFor_none (stops : List ℤ) (tsImg tol : ℤ)
    (htol : tol < 1000000000)
    (h : popStopFor stops tsImg tol = none) :
    ∀ u ∈ stops, tol < |u - tsImg| := by
  intro u hu
  unfold popStopFor at h
  cases hscan : scanBest (stops.map (fun x => |x - tsImg|)) with
  | mk ib bd =>
    rw [hscan] at h
    cases ib with
    | none =>
      have := scanBest_none _ bd hscan _ (List.mem_map_of_mem _ hu)
      omega
    | some i =>
      dsimp only at h
      obtain ⟨hidx, hmin⟩ := scanBest_some _ i bd hscan
      by_cases hbd : bd ≤ tol
      · rw [if_pos hbd] at h
        cases hget : stops[i]? with
        | none =>
          rw [List.getElem?_map, hget] at hidx
          simp at hidx
        | some t0 => rw [hget] at h; simp at h
      · have := hmin _ (List.mem_map_of_mem _ hu)
        omega

theorem lookupTags_setTags (idx : List (String × List String)) (k : String)
    (v : List String) : lookupTags (setTags idx k v) k = v := by
  induction idx with
  | nil => simp [setTags, lookupTags]
  | cons p rest ih =>
    obtain ⟨k0, v0⟩ := p
    by_cases h : k0 = k
    · simp [setTags, lookupTags, h]
    · simp [setTags, lookupTags, h, ih]

theorem mem_addTag1_left {ts : List String} {t : String} (u : String)
    (h : t ∈ ts) : t ∈ addTag1 ts u := by
  unfold addTag1
  split
  · exact h
  · exact List.mem_append_left _ h

theorem mem_addTag1_self (ts : List String) (t : String) : t ∈ addTag1 ts t := by
  unfold addTag1
  split
  · assumption
  · exact List.mem_append_right _ (by simp)

theorem mem_foldl_addTag1_of_mem (tags : List String) (cur : List String)
    (t : String) (h : t ∈ cur) : t ∈ tags.foldl addTag1 cur := by
  induction tags generalizing cur with
  | nil => simpa using h
  | cons u tags ih => exact ih _ (mem_addTag1_left u h)

theorem mem_foldl_addTag1 (tags : List String) (cur : List String)
    (t : String) (h : t ∈ tags) : t ∈ tags.foldl addTag1 cur := by
  induction tags generalizing cur with
  | nil => simp at h
  | cons u tags ih =>
    rcases List.mem_cons.mp h with rfl | h
    · simp only [List.foldl_cons]
      exact mem_foldl_addTag1_of_mem _ _ _ (mem_addTag1_self _ _)
    · simp only [List.foldl_cons]
      exact ih _ h

theorem mem_lookupTags_add_tags (idx : List (String × List String))
    (image : String) (tags : List String) (t : String) (h : t ∈ tags) :
    t ∈ lookupTags (add_tags idx image tags) image := by
  unfold add_tags
  rw [lookupTags_setTags]
  exact mem_foldl_addTag1 _ _ _ h

theorem pairLoop_fifo (imgs : List PendingImage) (st : EngineState) :
    ∃ n, (pairLoop imgs st).pendingImages = imgs.drop n ∧
      (pairLoop imgs st).ledger.map AssocRecord.image =
        st.ledger.map AssocRecord.image ++
          (imgs.take n).map (fun p => basename p.path) := by
  induction imgs generalizing st with
  | nil => exact ⟨0, by simp [pairLoop], by simp [pairLoop]⟩
  | cons img rest ih =>
    simp only [pairLoop]
    cases hpop : popBestResultFor st.pendingResults img.timestamp st.tol with
    | some pr =>
      obtain ⟨r, restRes⟩ := pr
      dsimp only
      set st2 := { applyPair { st with pendingResults := restRes } img.path
            (if r.result = "" then "win" else r.result)
            (if r.timestamp = 0 then img.timestamp else r.timestamp) r.synthetic with
          pendingStops := ((popStopFor (applyPair { st with pendingResults := restRes } img.path
            (if r.result = "" then "win" else r.result)
            (if r.timestamp = 0 then img.timestamp else r.timestamp) r.synthetic).pendingStops
              img.timestamp st.tol).map Prod.snd).getD
            (applyPair { st with pendingResults := restRes } img.path
            (if r.result = "" then "win" else r.result)
            (if r.timestamp = 0 then img.timestamp else r.timestamp) r.synthetic).pendingStops }
        with hst2
      obtain ⟨n, h1, h2⟩ := ih st2
      refine ⟨n + 1, ?_, ?_⟩
      · rw [h1]; rfl
      · rw [h2, hst2]
        simp [applyPair, append_result, List.take_succ_cons]
    | none =>
      cases hstop : popStopFor st.pendingStops img.timestamp st.tol with
      | some pr =>
        obtain ⟨tStop, restStops⟩ := pr
        dsimp only
        obtain ⟨n, h1, h2⟩ :=
          ih (applyPair { st with pendingStops := restStops } img.path "win" tStop true)
        refine ⟨n + 1, ?_, ?_⟩
        · rw [h1]; rfl
        · rw [h2]
          simp [applyPair, append_result, List.take_succ_cons]
      | none => exact ⟨0, by simp, by simp⟩

theorem syouhaiStep_noop (st : SyouhaiState) (bL bD bW : Bool) (now : ℤ)
    (h : classify bL bD bW = st.prevLabel) :
    syouhaiStep st bL bD bW now = (st, []) := by
  unfold syouhaiStep
  simp [h]

theorem syouhaiRun_noop (bL bD bW : Bool) (now : ℤ) (n : Nat)
    (st : SyouhaiState) (h : classify bL bD bW = st.prevLabel) :
    syouhaiRun bL bD bW now n st = (st, []) := by
  induction n with
  | zero => rfl
  | succ n ih =>
    unfold syouhaiRun
    rw [syouhaiStep_noop st bL bD bW now h]
    simp [ih]

theorem countOf_bump_self (st : SyouhaiState) (l : OutcomeLabel) :
    countOf (bumpCount st l) l = countOf st l + 1 := by
  cases l <;> rfl

theorem countOf_bump_ne (st : SyouhaiState) (l m : OutcomeLabel) (h : m ≠ l) :
    countOf (bumpCount st l) m = countOf st m := by
  cases l <;> cases m <;> first | rfl | exact absurd rfl h

theorem countOf_setPrev (st : SyouhaiState) (p : Option OutcomeLabel)
    (m : OutcomeLabel) : countOf { st with prevLabel := p } m = countOf st m := by
  cases m <;> rfl

theorem keyLt_iff (endTime : ℤ) (a b : FileEntry) :
    keyLt endTime a b = true ↔
      (|a.mtime - endTime| < |b.mtime - endTime| ∨
        (|a.mtime - endTime| = |b.mtime - endTime| ∧ b.mtime < a.mtime)) := by
  simp [keyLt]

theorem keyLe_refl (endTime : ℤ) (a : FileEntry) : keyLe endTime a a :=
  Or.inr ⟨rfl, le_refl _⟩

theorem keyLe_trans {endTime : ℤ} {a b c : FileEntry}
    (h1 : keyLe endTime a b) (h2 : keyLe endTime b c) : keyLe endTime a c := by
  rcases h1 with h1 | ⟨h1, h1m⟩ <;> rcases h2 with h2 | ⟨h2, h2m⟩
  · exact Or.inl (lt_trans h1 h2)
  · exact Or.inl (h2 ▸ h1)
  · exact Or.inl (h1 ▸ h2)
  · exact Or.inr ⟨h1.trans h2, le_trans h2m h1m⟩

theorem keyLe_of_keyLt {endTime : ℤ} {a b : FileEntry}
    (h : keyLt endTime a b = true) : keyLe endTime a b := by
  rcases (keyLt_iff endTime a b).mp h with h | ⟨h1, h2⟩
  · exact Or.inl h
  · exact Or.inr ⟨h1, le_of_lt h2⟩

theorem keyLe_of_not_keyLt {endTime : ℤ} {a b : FileEntry}
    (h : ¬ keyLt endTime a b = true) : keyLe endTime b a := by
  rw [keyLt_iff] at h
  push_neg at h
  obtain ⟨h1, h2⟩ := h
  rcases lt_or_eq_of_le h1 with hlt | heq
  · exact Or.inl hlt
  · exact Or.inr ⟨heq, h2 heq.symm⟩

theorem pickBest_some_ne_none (endTime : ℤ) (es : List FileEntry)
    (b : FileEntry) : pickBest endTime (some b) es ≠ none := by
  induction es generalizing b with
  | nil => simp [pickBest]
  | cons e es ih =>
    simp only [pickBest]
    exact ih _

theorem pickBest_some_spec (endTime : ℤ) (es : List FileEntry) (b r : FileEntry)
    (h : pickBest endTime (some b) es = some r) :
    (r = b ∨ r ∈ es) ∧ keyLe endTime r b ∧ ∀ g ∈ es, keyLe endTime r g := by
  induction es generalizing b with
  | nil =>
    simp only [pickBest, Option.some.injEq] at h
    subst h
    exact ⟨Or.inl rfl, keyLe_refl _ _, by simp⟩
  | cons e es ih =>
    simp only [pickBest] at h
    obtain ⟨hmem, hle, hall⟩ := ih _ h
    by_cases hk : keyLt endTime e b = true
    · rw [if_pos hk] at hmem hle
      refine ⟨?_, ?_, ?_⟩
      · rcases hmem with rfl | hm
        · exact Or.inr (List.mem_cons_self _ _)
        · exact Or.inr (List.mem_cons_of_mem _ hm)
      · exact keyLe_trans hle (keyLe_of_keyLt hk)
      · intro g hg
        rcases List.mem_cons.mp hg with rfl | hg
        · exact hle
        · exact hall g hg
    · rw [if_neg hk] at hmem hle
      refine ⟨?_, hle, ?_⟩
      · rcases hmem with rfl | hm
        · exact Or.inl rfl
        · exact Or.inr (List.mem_cons_of_mem _ hm)
      · intro g hg
        rcases List.mem_cons.mp hg with rfl | hg
        · exact keyLe_trans hle (keyLe_of_not_keyLt hk)
        · exact hall g hg

theorem totalsLoop_spec (rows : List LedgerRow) (a b c : Nat) :
    totalsLoop rows (a, b, c) =
      (a + (rows.filter fun r => decide (r.result ≠ "lose" ∧ r.result ≠ "disconnect")).length,
       b + (rows.filter fun r => decide (r.result = "lose")).length,
       c + (rows.filter fun r => decide (r.result = "disconnect")).length) := by
  induction rows generalizing a b c with
  | nil => simp [totalsLoop]
  | cons r rs ih =>
    simp only [totalsLoop, List.foldl_cons] at ih ⊢
    by_cases h1 : r.result = "lose"
    · rw [show totalsStep (a, b, c) r = (a, b + 1, c) by simp [totalsStep, h1]]
      rw [ih]
      simp only [List.filter_cons, h1]
      simp only [Prod.mk.injEq]
      refine ⟨?_, ?_, ?_⟩ <;> simp <;> omega
    · by_cases h2 : r.result = "disconnect"
      · rw [show totalsStep (a, b, c) r = (a, b, c + 1) by simp [totalsStep, h1, h2]]
        rw [ih]
        simp only [List.filter_cons, h1, h2]
        simp only [Prod.mk.injEq]
        refine ⟨?_, ?_, ?_⟩ <;> simp [h1, h2] <;> omega
      · rw [show totalsStep (a, b, c) r = (a + 1, b, c) by simp [totalsStep, h1, h2]]
        rw [ih]
        simp only [List.filter_cons, h1, h2]
        simp only [Prod.mk.injEq]
        refine ⟨?_, ?_, ?_⟩ <;> simp [h1, h2] <;> omega

theorem filter_partition_results (rows : List LedgerRow) :
    (rows.filter fun r => decide (r.result ≠ "lose" ∧ r.result ≠ "disconnect")).length +
      (rows.filter fun r => decide (r.result = "lose")).length +
      (rows.filter fun r => decide (r.result = "disconnect")).length = rows.length := by
  induction rows with
  | nil => simp
  | cons r rs ih =>
    simp only [List.filter_cons, List.length_cons]
    by_cases h1 : r.result = "lose"
    · simp [h1] at ih ⊢
      omega
    · by_cases h2 : r.result = "disconnect"
      · simp [h1, h2] at ih ⊢
        omega
      · simp [h1, h2] at ih ⊢
        omega

theorem dayKey_win_iff (res : String) :
    dayKey res = "win" ↔ (res ≠ "lose" ∧ res ≠ "disconnect") := by
  unfold dayKey
  by_cases h1 : res = "lose"
  · simp [h1]
  · by_cases h2 : res = "disconnect"
    · simp [h1, h2]
    · simp [h1, h2]

theorem dayKey_lose_iff (res : String) : dayKey res = "lose" ↔ res = "lose" := by
  unfold dayKey
  by_cases h1 : res = "lose"
  · simp [h1]
  · by_cases h2 : res = "disconnect"
    · simp [h1, h2]
    · simp [h1, h2]

theorem dayKey_dc_iff (res : String) :
    dayKey res = "disconnect" ↔ res = "disconnect" := by
  unfold dayKey
  by_cases h1 : res = "lose"
  · simp [h1]
  · by_cases h2 : res = "disconnect"
    · simp [h1, h2]
    · simp [h1, h2]

theorem aggregate_by_day_mem (rows : List LedgerRow) (s e : Option Int)
    (d : Int) (w l c : Nat)
    (h : (d, w, l, c) ∈ aggregate_by_day rows s e) :
    w = (rows.filter fun r => inDayRange s e r.t.date && decide (r.t.date = d) &&
          decide (r.result ≠ "lose" ∧ r.result ≠ "disconnect")).length ∧
    l = (rows.filter fun r => inDayRange s e r.t.date && decide (r.t.date = d) &&
          decide (r.result = "lose")).length ∧
    c = (rows.filter fun r => inDayRange s e r.t.date && decide (r.t.date = d) &&
          decide (r.result = "disconnect")).length := by
  unfold aggregate_by_day at h
  simp only [List.mem_map] at h
  obtain ⟨d0, _, heq⟩ := h
  simp only [Prod.mk.injEq] at heq
  obtain ⟨hd, hw, hl, hc⟩ := heq
  subst hd
  refine ⟨?_, ?_, ?_⟩
  · rw [← hw, List.filter_filter]
    apply congrArg List.length
    apply List.filter_congr
    intro r _
    rw [decide_eq_decide.mpr (dayKey_win_iff r.result)]
    cases hp : inDayRange s e r.t.date <;>
      cases hq : decide (r.t.date = d0) <;>
      cases hx : decide (r.result ≠ "lose" ∧ r.result ≠ "disconnect") <;>
      simp [hp, hq, hx]
  · rw [← hl, List.filter_filter]
    apply congrArg List.length
    apply List.filter_congr
    intro r _
    rw [decide_eq_decide.mpr (dayKey_lose_iff r.result)]
    cases hp : inDayRange s e r.t.date <;>
      cases hq : decide (r.t.date = d0) <;>
      cases hx : decide (r.result = "lose") <;>
      simp [hp, hq, hx]
  · rw [← hc, List.filter_filter]
    apply congrArg List.length
    apply List.filter_congr
    intro r _
    rw [decide_eq_decide.mpr (dayKey_dc_iff r.result)]
    cases hp : inDayRange s e r.t.date <;>
      cases hq : decide (r.t.date = d0) <;>
      cases hx : decide (r.result = "disconnect") <;>
      simp [hp, hq, hx]

theorem isCandidate_iff (exts : List String) (lo hi : ℤ) (g : FileEntry) :
    isCandidate exts lo hi g = true ↔
      (g.isFile = true ∧ extOf g.path ∈ exts ∧ lo ≤ g.mtime ∧ g.mtime ≤ hi) := by
  simp [isCandidate, and_assoc]

/-! ## Claim theorems -/

/-- C1: for every successful pairing of a pending image with a result,
committing the pairing (`_apply_pair`) appends exactly one association row
carrying the timestamp, the image name, the result and the configured season
to the ledger, and adds the result label — and, when a season is configured,
the season tag — to that image's entry of the tag index. -/
theorem claim1_commit_appends_row_and_tags (st : EngineState)
    (imgPath res : String) (ts : ℤ) (syn : Bool) :
    (applyPair st imgPath res ts syn).ledger =
        st.ledger ++ [⟨ts, basename imgPath, res, st.season⟩] ∧
    (applyPair st imgPath res ts syn).ledger.length = st.ledger.length + 1 ∧
    res ∈ lookupTags (applyPair st imgPath res ts syn).tags (basename imgPath) ∧
    (st.season ≠ "" →
      ("season:" ++ st.season) ∈
        lookupTags (applyPair st imgPath res ts syn).tags (basename imgPath)) := by
  refine ⟨rfl, ?_, ?_, ?_⟩
  · simp [applyPair, append_result]
  · unfold applyPair
    apply mem_lookupTags_add_tags
    by_cases h : st.season = "" <;> simp [h]
  · intro hs
    unfold applyPair
    apply mem_lookupTags_add_tags
    simp [hs]

/-- Witness for C1 at a concrete commit with season `"S13"`. -/
theorem claim1_commit_appends_row_and_tags_witness :
    seasonState.season ≠ "" ∧
    ("season:" ++ "S13") ∈
      lookupTags (applyPair seasonState "koutiku/a.png" "win" 42 false).tags
        (basename "koutiku/a.png") :=
  ⟨by decide,
   (claim1_commit_appends_row_and_tags seasonState "koutiku/a.png" "win" 42
      false).2.2.2 (by decide)⟩

/-- C2: `_pop_best_result_for` returns the pending result minimizing
`|resultTimestamp - imageTimestamp|`, and pops one exactly when that minimal
delta is within the tolerance; on the spec's example (image at 100, results
at 80 win and 105 lose, tolerance 20) the committed record carries `lose`. -/
theorem claim2_tolerance_matching (results : List ResultItem) (tsImg tol : ℤ)
    (htol : tol < 1000000000) :
    (∀ r rest, popBestResultFor results tsImg tol = some (r, rest) →
        r ∈ results ∧ |r.timestamp - tsImg| ≤ tol ∧
          ∀ q ∈ results, |r.timestamp - tsImg| ≤ |q.timestamp - tsImg|) ∧
    (popBestResultFor results tsImg tol = none →
        ∀ q ∈ results, tol < |q.timestamp - tsImg|) ∧
    (pairItems toleranceExample).ledger = [⟨105, "img.png", "lose", ""⟩] := by
  refine ⟨fun r rest h => popBestResultFor_some results tsImg tol r rest h,
          fun h => popBestResultFor_none results tsImg tol htol h, ?_⟩
  decide

/-- Witness for C2 on the spec's tolerance-matching example. -/
theorem claim2_tolerance_matching_witness :
    (20 : ℤ) < 1000000000 ∧
    (⟨105, "lose", false⟩ : ResultItem) ∈ toleranceExample.pendingResults ∧
    |(105 : ℤ) - 100| ≤ 20 := by
  have h := (claim2_tolerance_matching toleranceExample.pendingResults 100 20
      (by decide)).1 ⟨105, "lose", false⟩ [⟨80, "win", false⟩] (by decide)
  exact ⟨by decide, h.1, h.2.1⟩

/-- C3: the pairing pass consumes pending images strictly in discovery
order — whatever it commits is exactly a prefix of the queue, appended to the
ledger in queue order, and the remaining queue is the corresponding suffix;
moreover, when the head cannot be paired this tick, the pass changes
nothing (no image behind the head is examined). -/
theorem claim3_fifo_order (st : EngineState) :
    (∃ n, (pairItems st).pendingImages = st.pendingImages.drop n ∧
      (pairItems st).ledger.map AssocRecord.image =
        st.ledger.map AssocRecord.image ++
          (st.pendingImages.take n).map (fun p => basename p.path)) ∧
    (∀ img rest, st.pendingImages = img :: rest →
      popBestResultFor st.pendingResults img.timestamp st.tol = none →
      popStopFor st.pendingStops img.timestamp st.tol = none →
      pairItems st = st) := by
  constructor
  · exact pairLoop_fifo st.pendingImages st
  · intro img rest himg hpop hstop
    unfold pairItems
    rw [himg]
    simp only [pairLoop]
    rw [hpop]
    dsimp only
    rw [hstop]
    dsimp only
    rw [← himg]

/-- Witness for C3: a blocked head leaves the state untouched. -/
theorem claim3_fifo_order_witness :
    pairItems singleImageState = singleImageState :=
  (claim3_fifo_order singleImageState).2 ⟨"solo.png", 50⟩ [] rfl
    (by decide) (by decide)

/-- C4 (on the spec's starvation example, `defaultWinTimeout = 30` with the
default tolerance 20): at 31 seconds the guard fires and synthesizes one
`{result: win, synthetic: true}` event stamped with the current time, but
that event is 31 seconds away from the image timestamp — outside the
tolerance — so the pairing pass commits nothing, the image stays pending,
and on every later tick the stale pending synthetic result disables the
guard, so no synthetic win is ever committed (the claim expects exactly one
committed pairing). -/
theorem claim4_starvation_guard_never_commits :
    defaultWinStep starvationStart 31 = starvationStuck ∧
    starvationStuck.ledger = [] ∧
    starvationStuck.pendingImages = starvationStart.pendingImages ∧
    starvationStuck.pendingResults = [⟨31, "win", true⟩] ∧
    (∀ now : ℤ, defaultWinStep starvationStuck now = starvationStuck) := by
  refine ⟨by decide, by decide, by decide, by decide, ?_⟩
  intro now
  simp [defaultWinStep, starvationStuck, starvationStart]

/-- Counterexample to C5: with the controller Recording (session started at
0), a stop-region match whose stop command is never confirmed
(`stopped = false`) leaves `recording` true — the controller does not
transition to Idle — even though the window is handed off and the session
timestamp is cleared. -/
theorem claim5_unconfirmed_stop_counterexample :
    (stopBranch ⟨true, some 0⟩ 10 false).1.recording = true ∧
    (stopBranch ⟨true, some 0⟩ 10 false).2 = some (0, 10) ∧
    (stopBranch ⟨true, some 0⟩ 10 false).1.recStartTs = none := by
  decide

/-- C5 as amended: when the stop region matches while Recording, the window
`[startTimestamp, now]` is handed to the pairer and the session timestamp is
cleared regardless of confirmation, but the Recording-to-Idle transition
happens exactly when the stop command is confirmed. -/
theorem claim5_stop_branch_amended (st : RkaisiState) (s now : ℤ)
    (stopped : Bool) (hts : st.recStartTs = some s) :
    (stopBranch st now stopped).2 = some (s, now) ∧
    (stopBranch st now stopped).1.recStartTs = none ∧
    (st.recording = true →
      ((stopBranch st now stopped).1.recording = false ↔ stopped = true)) := by
  unfold stopBranch
  refine ⟨by simp [hts], rfl, ?_⟩
  intro hrec
  cases stopped <;> simp [hrec]

/-- Witness for the amended C5 at a confirmed stop. -/
theorem claim5_stop_branch_amended_witness :
    (⟨true, some 5⟩ : RkaisiState).recStartTs = some 5 ∧
    (stopBranch ⟨true, some 5⟩ 11 true).2 = some (5, 11) :=
  ⟨rfl, (claim5_stop_branch_amended ⟨true, some 5⟩ 5 11 true rfl).1⟩

/-- Counterexample to C6: the admission path of the association engine
ignores the filename pattern.  The name `2024-01-02_03-04-05.png` matches the
embedded-timestamp pattern, yet the admitted `sourceTimestamp` follows the
file's modification time (two different mtimes give two different
timestamps), so it is not parsed from the name. -/
theorem claim6_name_pattern_ignored_counterexample :
    (parse_name_ts "2024-01-02_03-04-05.png").isSome = true ∧
    admittedTimestamp "2024-01-02_03-04-05.png" (some 0) 99 = 0 ∧
    admittedTimestamp "2024-01-02_03-04-05.png" (some 7) 99 = 7 ∧
    (0 : ℤ) ≠ 7 := by
  decide

/-- C6 as amended: the `sourceTimestamp` the engine uses for tolerance
matching is always the file's modification time — even when the name matches
one of the embedded patterns — and the current time is used only when the
stat fails. -/
theorem claim6_admitted_ts_amended (name : String) (m now : ℤ)
    (hname : (parse_name_ts name).isSome = true) :
    admittedTimestamp name (some m) now = m ∧
    admittedTimestamp name none now = now :=
  ⟨rfl, rfl⟩

/-- Witness for the amended C6 on a legacy-pattern name. -/
theorem claim6_admitted_ts_amended_witness :
    (parse_name_ts "20240102_030405.jpg").isSome = true ∧
    admittedTimestamp "20240102_030405.jpg" (some 123) 999 = 123 :=
  ⟨by decide, (claim6_admitted_ts_amended "20240102_030405.jpg" 123 999
      (by decide)).1⟩

/-- Counterexample to C7: pairing the image at `t = 100` with the pending
lose result discards only the closest stop marker (105); the marker at 90,
also within the tolerance 20 of the image, stays pending after the commit. -/
theorem claim7_second_stop_marker_remains :
    (pairItems twoStopsState).ledger = [⟨100, "a.png", "lose", ""⟩] ∧
    (pairItems twoStopsState).pendingStops = [90] ∧
    |(90 : ℤ) - 100| ≤ twoStopsState.tol := by
  decide

/-- C7 as amended: when an image is paired with an outcome result, at most
one stop marker is discarded — the one closest to the image timestamp,
exactly when it is within tolerance; when none is within tolerance the stop
queue is untouched. -/
theorem claim7_stop_cleanup_amended (stops : List ℤ) (tsImg tol : ℤ)
    (htol : tol < 1000000000) :
    (∀ t rest, popStopFor stops tsImg tol = some (t, rest) →
        t ∈ stops ∧ |t - tsImg| ≤ tol ∧
          (∀ u ∈ stops, |t - tsImg| ≤ |u - tsImg|) ∧
          rest.length + 1 = stops.length) ∧
    (popStopFor stops tsImg tol = none → ∀ u ∈ stops, tol < |u - tsImg|) :=
  ⟨fun t rest h => popStopFor_some stops tsImg tol t rest h,
   fun h => popStopFor_none stops tsImg tol htol h⟩

/-- Witness for the amended C7 on the two-marker example. -/
theorem claim7_stop_cleanup_amended_witness :
    (20 : ℤ) < 1000000000 ∧ (105 : ℤ) ∈ ([90, 105] : List ℤ) ∧
    |(105 : ℤ) - 100| ≤ 20 := by
  have h := (claim7_stop_cleanup_amended [90, 105] 100 20 (by decide)).1 105 [90]
    (by decide)
  exact ⟨by decide, h.1, h.2.1⟩

/-- C8: when the classifier evaluates to the same label on `n ≥ 1`
consecutive polls after a different previous label, exactly one event with
that label is emitted and only that label's counter moves, by exactly one;
and the region priority is lose over disconnect over win. -/
theorem claim8_edge_trigger_and_priority (st : SyouhaiState) (bL bD bW : Bool)
    (now : ℤ) (n : Nat) (l : OutcomeLabel) (hn : 1 ≤ n)
    (hcl : classify bL bD bW = some l) (hprev : st.prevLabel ≠ some l) :
    (syouhaiRun bL bD bW now n st).2 = [⟨now, l⟩] ∧
    countOf (syouhaiRun bL bD bW now n st).1 l = countOf st l + 1 ∧
    (∀ m, m ≠ l → countOf (syouhaiRun bL bD bW now n st).1 m = countOf st m) ∧
    (syouhaiRun bL bD bW now n st).1.prevLabel = some l ∧
    (∀ b2 b3, classify true b2 b3 = some OutcomeLabel.lose) ∧
    (∀ b3, classify false true b3 = some OutcomeLabel.disconnect) ∧
    classify false false true = some OutcomeLabel.win := by
  obtain ⟨k, rfl⟩ : ∃ k, n = k + 1 := ⟨n - 1, by omega⟩
  have hstep : syouhaiStep st bL bD bW now =
      ({ bumpCount st l with prevLabel := some l }, [⟨now, l⟩]) := by
    unfold syouhaiStep
    rw [hcl]
    simp [Ne.symm hprev]
  have hrest : syouhaiRun bL bD bW now k
      { bumpCount st l with prevLabel := some l } =
      ({ bumpCount st l with prevLabel := some l }, []) :=
    syouhaiRun_noop bL bD bW now k _ hcl
  have hrun : syouhaiRun bL bD bW now (k + 1) st =
      ({ bumpCount st l with prevLabel := some l }, [⟨now, l⟩]) := by
    unfold syouhaiRun
    rw [hstep]
    dsimp only
    rw [hrest]
    simp
  rw [hrun]
  refine ⟨rfl, ?_, ?_, rfl, fun b2 b3 => rfl, fun b3 => rfl, rfl⟩
  · rw [countOf_setPrev]
    exact countOf_bump_self st l
  · intro m hm
    rw [countOf_setPrev]
    exact countOf_bump_ne st l m hm

/-- Witness for C8: five consecutive win polls from a blank state. -/
theorem claim8_edge_trigger_and_priority_witness :
    1 ≤ 5 ∧ classify false false true = some OutcomeLabel.win ∧
    (⟨0, 0, 0, none⟩ : SyouhaiState).prevLabel ≠ some OutcomeLabel.win ∧
    (syouhaiRun false false true 7 5 ⟨0, 0, 0, none⟩).2 =
      [⟨7, OutcomeLabel.win⟩] := by
  have h := claim8_edge_trigger_and_priority ⟨0, 0, 0, none⟩ false false true 7 5
    OutcomeLabel.win (by decide) (by decide) (by decide)
  exact ⟨by decide, by decide, by decide, h.1⟩

/-- C9: `find_recording_file` returns a file exactly when some regular file
with an allowed extension has modification time within
`[start - margin, end + margin]`; any returned file is such a candidate and
is closest to `end` among candidates, ties broken by the most recent
modification time; and on the spec's example (window `[1000, 1010]`, margin
20, mtimes 985/1005/1035) it returns the file of mtime 1005. -/
theorem claim9_window_pairing (entries : List FileEntry)
    (startTime endTime margin : ℤ) (exts : List String) (hm : 0 ≤ margin) :
    ((find_recording_file entries startTime endTime margin exts).isSome ↔
      ∃ g ∈ entries, g.isFile = true ∧ extOf g.path ∈ exts ∧
        startTime - margin ≤ g.mtime ∧ g.mtime ≤ endTime + margin) ∧
    (∀ f, find_recording_file entries startTime endTime margin exts = some f →
      f ∈ entries ∧ f.isFile = true ∧ extOf f.path ∈ exts ∧
        startTime - margin ≤ f.mtime ∧ f.mtime ≤ endTime + margin ∧
        ∀ g ∈ entries, g.isFile = true → extOf g.path ∈ exts →
          startTime - margin ≤ g.mtime → g.mtime ≤ endTime + margin →
          (|f.mtime - endTime| < |g.mtime - endTime| ∨
            (|f.mtime - endTime| = |g.mtime - endTime| ∧ g.mtime ≤ f.mtime))) ∧
    find_recording_file windowExampleEntries 1000 1010 20 [".mkv"] =
      some ⟨"b.mkv", 1005, true⟩ := by
  have hmax : max (0 : ℤ) margin = margin := max_eq_right hm
  have hff : find_recording_file entries startTime endTime margin exts =
      pickBest endTime none (entries.filter
        (isCandidate exts (startTime - margin) (endTime + margin))) := by
    unfold find_recording_file
    rw [hmax]
  refine ⟨?_, ?_, by decide⟩
  · rw [hff]
    cases hfil : entries.filter
        (isCandidate exts (startTime - margin) (endTime + margin)) with
    | nil =>
      simp only [pickBest, Option.isSome_none, Bool.false_eq_true, false_iff]
      rintro ⟨g, hg, hcand⟩
      have hgm : g ∈ entries.filter
          (isCandidate exts (startTime - margin) (endTime + margin)) :=
        List.mem_filter.mpr ⟨hg, (isCandidate_iff _ _ _ _).mpr hcand⟩
      rw [hfil] at hgm
      simp at hgm
    | cons a as =>
      simp only [pickBest]
      constructor
      · intro _
        have ha : a ∈ entries.filter
            (isCandidate exts (startTime - margin) (endTime + margin)) := by
          rw [hfil]; exact List.mem_cons_self _ _
        have h2 := List.mem_filter.mp ha
        exact ⟨a, h2.1, (isCandidate_iff _ _ _ _).mp h2.2⟩
      · intro _
        cases hpb : pickBest endTime (some a) as with
        | none => exact absurd hpb (pickBest_some_ne_none _ _ _)
        | some f => simp
  · intro f hf
    rw [hff] at hf
    cases hfil : entries.filter
        (isCandidate exts (startTime - margin) (endTime + margin)) with
    | nil =>
      rw [hfil] at hf
      simp [pickBest] at hf
    | cons a as =>
      rw [hfil] at hf
      simp only [pickBest] at hf
      obtain ⟨hmem, hle, hall⟩ := pickBest_some_spec endTime as a f hf
      have hfmem : f ∈ entries.filter
          (isCandidate exts (startTime - margin) (endTime + margin)) := by
        rw [hfil]
        rcases hmem with rfl | h
        · exact List.mem_cons_self _ _
        · exact List.mem_cons_of_mem _ h
      have hf2 := List.mem_filter.mp hfmem
      have hcand := (isCandidate_iff _ _ _ _).mp hf2.2
      refine ⟨hf2.1, hcand.1, hcand.2.1, hcand.2.2.1, hcand.2.2.2, ?_⟩
      intro g hg hgf hge hglo hghi
      have hgmem : g ∈ entries.filter
          (isCandidate exts (startTime - margin) (endTime + margin)) :=
        List.mem_filter.mpr ⟨hg, (isCandidate_iff _ _ _ _).mpr ⟨hgf, hge, hglo, hghi⟩⟩
      rw [hfil] at hgmem
      rcases List.mem_cons.mp hgmem with rfl | hgmem
      · exact hle
      · exact hall g hgmem

/-- Witness for C9 on the spec's window-pairing example. -/
theorem claim9_window_pairing_witness :
    (0 : ℤ) ≤ 20 ∧
    find_recording_file windowExampleEntries 1000 1010 20 [".mkv"] =
      some ⟨"b.mkv", 1005, true⟩ :=
  ⟨by decide, (claim9_window_pairing windowExampleEntries 1000 1010 20 [".mkv"]
      (by decide)).2.2⟩

/-- C10: `compute_totals` counts a row as a win exactly when its result is
neither `lose` nor `disconnect` (free text counts as a win), the three
counters partition the rows, the win rate is `win / (win + lose) * 100` (and
`0` when `win + lose = 0`); and every per-day row of `aggregate_by_day`
counts with the same classification rule, restricted to that day and the
optional date range. -/
theorem claim10_totals_and_daily (rows : List LedgerRow) (s e : Option Int) :
    (compute_totals rows).1 =
      (rows.filter fun r =>
        decide (r.result ≠ "lose" ∧ r.result ≠ "disconnect")).length ∧
    (compute_totals rows).2.1 =
      (rows.filter fun r => decide (r.result = "lose")).length ∧
    (compute_totals rows).2.2.1 =
      (rows.filter fun r => decide (r.result = "disconnect")).length ∧
    (compute_totals rows).1 + (compute_totals rows).2.1 +
      (compute_totals rows).2.2.1 = rows.length ∧
    ((compute_totals rows).1 + (compute_totals rows).2.1 = 0 →
      (compute_totals rows).2.2.2 = 0) ∧
    (0 < (compute_totals rows).1 + (compute_totals rows).2.1 →
      (compute_totals rows).2.2.2 =
        (((compute_totals rows).1 : ℚ) /
          (((compute_totals rows).1 : ℚ) + ((compute_totals rows).2.1 : ℚ))) *
          100) ∧
    (∀ d w l c, (d, w, l, c) ∈ aggregate_by_day rows s e →
      w = (rows.filter fun r => inDayRange s e r.t.date &&
            decide (r.t.date = d) &&
            decide (r.result ≠ "lose" ∧ r.result ≠ "disconnect")).length ∧
      l = (rows.filter fun r => inDayRange s e r.t.date &&
            decide (r.t.date = d) && decide (r.result = "lose")).length ∧
      c = (rows.filter fun r => inDayRange s e r.t.date &&
            decide (r.t.date = d) && decide (r.result = "disconnect")).length) := by
  have hloop := totalsLoop_spec rows 0 0 0
  simp only [Nat.zero_add] at hloop
  have h1 : (compute_totals rows).1 =
      (rows.filter fun r =>
        decide (r.result ≠ "lose" ∧ r.result ≠ "disconnect")).length := by
    simp only [compute_totals, hloop]
  have h2 : (compute_totals rows).2.1 =
      (rows.filter fun r => decide (r.result = "lose")).length := by
    simp only [compute_totals, hloop]
  have h3 : (compute_totals rows).2.2.1 =
      (rows.filter fun r => decide (r.result = "disconnect")).length := by
    simp only [compute_totals, hloop]
  refine ⟨h1, h2, h3, ?_, ?_, ?_, ?_⟩
  · rw [h1, h2, h3]
    exact filter_partition_results rows
  · intro h0
    simp only [compute_totals, hloop] at h0 ⊢
    rw [if_neg (by omega)]
  · intro hpos
    simp only [compute_totals, hloop] at hpos ⊢
    rw [if_pos (by omega)]
  · intro d w l c hmem
    exact aggregate_by_day_mem rows s e d w l c hmem

/-- Witness for C10 on three rows over two days with one free-text label. -/
theorem claim10_totals_and_daily_witness :
    0 < (compute_totals exampleRows).1 + (compute_totals exampleRows).2.1 ∧
    (compute_totals exampleRows).2.2.2 =
      (((compute_totals exampleRows).1 : ℚ) /
        (((compute_totals exampleRows).1 : ℚ) +
          ((compute_totals exampleRows).2.1 : ℚ))) * 100 ∧
    ((1 : Int), (0 : Nat), (1 : Nat), (0 : Nat)) ∈
      aggregate_by_day exampleRows none none ∧
    (0 : Nat) = (exampleRows.filter fun r =>
      inDayRange (none : Option Int) none r.t.date && decide (r.t.date = 1) &&
        decide (r.result ≠ "lose" ∧ r.result ≠ "disconnect")).length := by
  refine ⟨by decide, (claim10_totals_and_daily exampleRows none none).2.2.2.2.2.1
      (by decide), by decide,
    ((claim10_totals_and_daily exampleRows none none).2.2.2.2.2.2 1 0 1 0
      (by decide)).1⟩
